import Mathlib

/-!
# Verification of the `runzip` random-access ZIP reader

A shallow embedding of the Rust sources of `runzip` (a random-access ZIP
archive reader over local files and HTTP Range requests), together with
theorems settling a list of claims about the program.

Bytes are modelled as `Nat` values (each `< 256` in well-formed sources),
byte stores as `List Nat`.  Machine integers are modelled as `Nat` with
explicit `% 2^64` wrapping where the Rust `u64` arithmetic can overflow.
Fallible operations return `Except String`, carrying the error messages of
the source.
-/

deriving instance DecidableEq for Except

namespace Runzip

/-- `2^64`, the modulus of Rust `u64` arithmetic. -/
def U64MOD : Nat := 18446744073709551616

/-- Wrapping `u64` subtraction `a - b` (both arguments assumed `< 2^64`),
as performed by a release-mode Rust build. -/
def wsub64 (a b : Nat) : Nat := (a + U64MOD - b % U64MOD) % U64MOD

/-- The byte of `data` at index `i`; reads past the end yield `0`,
matching a zero-initialised buffer whose tail a short read left untouched. -/
def byteAt (data : List Nat) (i : Nat) : Nat := data.getD i 0

/-- Little-endian read of `n` bytes of `data` starting at index `i`
(the value of `u16`/`u32`/`u64` fields of the ZIP format). -/
def readLE (data : List Nat) (i : Nat) : Nat → Nat
  | 0 => 0
  | n + 1 => byteAt data i + 256 * readLE data (i + 1) n

/-- Model of a positioned read (`ReadAt::read_at`) into a zero-initialised
buffer of length `len`: the available bytes of `src` starting at `off` land
in the buffer, the rest of the buffer stays `0`.  The byte count returned by
the Rust call is `min len (src.length - off)`; callers that ignore the count
see exactly this buffer. -/
def readAt (src : List Nat) (off len : Nat) : List Nat :=
  let avail := (src.drop off).take len
  avail ++ List.replicate (len - avail.length) 0

/-- `read_at` always fills a buffer of the requested length. -/
theorem readAt_length (src : List Nat) (off len : Nat) :
    (readAt src off len).length = len := by
  simp only [readAt, List.length_append, List.length_replicate, List.length_take,
    List.length_drop]
  omega

/-! ## `src/zip/structures.rs` -/

/-- `CompressionMethod` (src/zip/structures.rs): the ZIP compression-method
tag, keeping unknown raw values. -/
inductive CompressionMethod where
  | Stored
  | Deflate
  | Unknown (v : Nat)
deriving DecidableEq, Repr

/-- `CompressionMethod::from_u16` (src/zip/structures.rs). -/
def CompressionMethod.from_u16 (value : Nat) : CompressionMethod :=
  match value with
  | 0 => .Stored
  | 8 => .Deflate
  | _ => .Unknown value

/-- `CompressionMethod::as_u16` (src/zip/structures.rs). -/
def CompressionMethod.as_u16 : CompressionMethod → Nat
  | .Stored => 0
  | .Deflate => 8
  | .Unknown v => v

/-- `ZipFileEntry` (src/zip/structures.rs): parsed metadata of one archive
entry, as produced by the Central Directory walk. -/
structure ZipFileEntry where
  file_name : List Nat
  compression_method : CompressionMethod
  compressed_size : Nat
  uncompressed_size : Nat
  crc32 : Nat
  lfh_offset : Nat
  last_mod_time : Nat
  last_mod_date : Nat
  is_directory : Bool
deriving DecidableEq, Repr

/-- `ZipFileEntry::mod_date` (src/zip/structures.rs): unpack the DOS date
word into `(year, month, day)`. -/
def ZipFileEntry.mod_date (e : ZipFileEntry) : Nat × Nat × Nat :=
  let d := e.last_mod_date
  (((d >>> 9) &&& 0x7F) + 1980, (d >>> 5) &&& 0x0F, d &&& 0x1F)

/-- `ZipFileEntry.mod_time` (src/zip/structures.rs): unpack the DOS time
word into `(hour, minute, second)`. -/
def ZipFileEntry.mod_time (e : ZipFileEntry) : Nat × Nat × Nat :=
  let t := e.last_mod_time
  ((t >>> 11) &&& 0x1F, (t >>> 5) &&& 0x3F, (t &&& 0x1F) * 2)

/-- `EndOfCentralDirectory` (src/zip/structures.rs): the 22-byte EOCD
record. -/
structure EndOfCentralDirectory where
  disk_number : Nat
  disk_with_cd : Nat
  disk_entries : Nat
  total_entries : Nat
  cd_size : Nat
  cd_offset : Nat
  comment_len : Nat
deriving DecidableEq, Repr

/-- `EndOfCentralDirectory::SIGNATURE`, the bytes of `PK\x05\x06`. -/
def eocdSignature : List Nat := [0x50, 0x4B, 0x05, 0x06]

/-- `EndOfCentralDirectory::SIZE` (22 bytes). -/
def EOCD_SIZE : Nat := 22

/-- `MAX_COMMENT_SIZE` (src/zip/parser.rs). -/
def MAX_COMMENT_SIZE : Nat := 65535

/-- Comparison of the slice `data[i..i+pat.length]` against `pat`
(the Rust slice comparisons `&buf[i..i+4] == SIGNATURE`). -/
def sliceEq (data : List Nat) (i : Nat) (pat : List Nat) : Bool :=
  (data.drop i).take pat.length == pat

/-- `EndOfCentralDirectory::from_bytes` (src/zip/structures.rs). -/
def EndOfCentralDirectory.from_bytes (data : List Nat) :
    Except String EndOfCentralDirectory :=
  if data.length < EOCD_SIZE then .error "Invalid End of Central Directory"
  else if !sliceEq data 0 eocdSignature then .error "Invalid End of Central Directory"
  else .ok {
    disk_number := readLE data 4 2
    disk_with_cd := readLE data 6 2
    disk_entries := readLE data 8 2
    total_entries := readLE data 10 2
    cd_size := readLE data 12 4
    cd_offset := readLE data 16 4
    comment_len := readLE data 20 2 }

/-- `EndOfCentralDirectory::is_zip64` (src/zip/structures.rs). -/
def EndOfCentralDirectory.is_zip64 (e : EndOfCentralDirectory) : Bool :=
  e.disk_entries == 0xFFFF || e.total_entries == 0xFFFF ||
    e.cd_size == 0xFFFFFFFF || e.cd_offset == 0xFFFFFFFF

/-! ## EOCD discovery (src/zip/parser.rs, `ZipParser::find_eocd`) -/

/-- The candidate test of the backward scan in `find_eocd`: the four bytes
at `i` are the EOCD signature and the u16 comment-length field at `i + 20`
matches the bytes remaining after the candidate record. -/
def eocdCand (buf : List Nat) (i : Nat) : Bool :=
  sliceEq buf i eocdSignature && (readLE buf (i + 20) 2 == buf.length - i - EOCD_SIZE)

/-- Backward scan from index `i` down to `0`, returning the first (highest)
index whose candidate test succeeds. -/
def eocdScanFrom (buf : List Nat) : Nat → Option Nat
  | 0 => if eocdCand buf 0 then some 0 else none
  | i + 1 => if eocdCand buf (i + 1) then some (i + 1) else eocdScanFrom buf i

/-- The loop `for i in (0..buf.len().saturating_sub(EOCD_SIZE)).rev()` of
`find_eocd`: the range is empty when `buf.len() ≤ EOCD_SIZE`, and otherwise
starts at `buf.len() - EOCD_SIZE - 1`. -/
def scanCode (buf : List Nat) : Option Nat :=
  match buf.length - EOCD_SIZE with
  | 0 => none
  | n + 1 => eocdScanFrom buf n

/-- The fallback backward search of `find_eocd` (src/zip/parser.rs): read
the last `min(65535 + 22, size)` bytes and scan backwards for a candidate
EOCD. -/
def find_eocd_scan (src : List Nat) : Except String (EndOfCentralDirectory × Nat) :=
  match scanCode (readAt src
      (src.length - min (MAX_COMMENT_SIZE + EOCD_SIZE) src.length)
      (min (MAX_COMMENT_SIZE + EOCD_SIZE) src.length)) with
  | some i =>
    (EndOfCentralDirectory.from_bytes
        (((readAt src (src.length - min (MAX_COMMENT_SIZE + EOCD_SIZE) src.length)
          (min (MAX_COMMENT_SIZE + EOCD_SIZE) src.length)).drop i).take EOCD_SIZE)).map
      (fun e => (e, src.length - min (MAX_COMMENT_SIZE + EOCD_SIZE) src.length + i))
  | none => .error "Not a valid ZIP file"

/-- `ZipParser::find_eocd` (src/zip/parser.rs): fast path on the last 22
bytes when the comment-length bytes are zero, otherwise the backward scan. -/
def find_eocd (src : List Nat) : Except String (EndOfCentralDirectory × Nat) :=
  if EOCD_SIZE ≤ src.length then
    if sliceEq (readAt src (src.length - EOCD_SIZE) EOCD_SIZE) 0 eocdSignature &&
        (byteAt (readAt src (src.length - EOCD_SIZE) EOCD_SIZE) 20 == 0) &&
        (byteAt (readAt src (src.length - EOCD_SIZE) EOCD_SIZE) 21 == 0) then
      (EndOfCentralDirectory.from_bytes (readAt src (src.length - EOCD_SIZE) EOCD_SIZE)).map
        (fun e => (e, src.length - EOCD_SIZE))
    else find_eocd_scan src
  else find_eocd_scan src

/-- The scan range as worded by the specification: indices from
`search - 22` downward to `0` (empty when the buffer is shorter than a
record). -/
def scanSpec (buf : List Nat) : Option Nat :=
  if buf.length < EOCD_SIZE then none
  else eocdScanFrom buf (buf.length - EOCD_SIZE)

/-- EOCD discovery as worded by the specification: accept the tail record
when its signature matches and its comment-length field is zero, otherwise
scan the last `min(65535 + 22, size)` bytes from `search - 22` downward,
accepting the first index whose signature and comment-length claim match,
and fail otherwise.  Stated for comparison with `find_eocd`. -/
def find_eocd_spec (src : List Nat) : Except String (EndOfCentralDirectory × Nat) :=
  if EOCD_SIZE ≤ src.length ∧
      sliceEq (readAt src (src.length - EOCD_SIZE) EOCD_SIZE) 0 eocdSignature = true ∧
      readLE (readAt src (src.length - EOCD_SIZE) EOCD_SIZE) 20 2 = 0 then
    (EndOfCentralDirectory.from_bytes (readAt src (src.length - EOCD_SIZE) EOCD_SIZE)).map
      (fun e => (e, src.length - EOCD_SIZE))
  else
    match scanSpec (readAt src
        (src.length - min (MAX_COMMENT_SIZE + EOCD_SIZE) src.length)
        (min (MAX_COMMENT_SIZE + EOCD_SIZE) src.length)) with
    | some i =>
      (EndOfCentralDirectory.from_bytes
          (((readAt src (src.length - min (MAX_COMMENT_SIZE + EOCD_SIZE) src.length)
            (min (MAX_COMMENT_SIZE + EOCD_SIZE) src.length)).drop i).take EOCD_SIZE)).map
        (fun e => (e, src.length - min (MAX_COMMENT_SIZE + EOCD_SIZE) src.length + i))
    | none => .error "Not a valid ZIP file"

/-! ## Central Directory File Header parsing
(src/zip/parser.rs, `ZipParser::parse_cdfh`) -/

/-- `CDFH_SIGNATURE`, the bytes of `PK\x01\x02`. -/
def cdfhSignature : List Nat := [0x50, 0x4B, 0x01, 0x02]

/-- `LFH_SIGNATURE`, the bytes of `PK\x03\x04`. -/
def lfhSignature : List Nat := [0x50, 0x4B, 0x03, 0x04]

/-- `LFH_SIZE` (30 bytes, fixed portion). -/
def LFH_SIZE : Nat := 30

/-- A cursor read of `n` little-endian bytes at position `p`:
`Cursor::read_u16/u32/u64` and `read_exact`, which fail when the
underlying data is exhausted. -/
def cread (data : List Nat) (p n : Nat) : Except String Nat :=
  if p + n ≤ data.length then .ok (readLE data p n)
  else .error "failed to fill whole buffer"

/-- The `header_id == 0x0001` branch of the extra-field loop in
`parse_cdfh` (src/zip/parser.rs): for each of uncompressed size,
compressed size and LFH offset in that order, read an 8-byte replacement
only when the base value is `0xFFFFFFFF` and 8 bytes remain before
`fe` (the end of the extra blob); finally skip to `fe`.
Returns the three resolved fields and the final cursor position. -/
def zip64Field (data : List Nat) (fe v p : Nat) : Except String (Nat × Nat) :=
  if v = 0xFFFFFFFF ∧ p + 8 ≤ fe then
    match cread data p 8 with
    | .error e => .error e
    | .ok w => .ok (w, p + 8)
  else .ok (v, p)

/-- The `header_id == 0x0001` body, assembled from the three sequential
conditional reads followed by the skip of any remaining ZIP64 payload. -/
def zip64Branch (data : List Nat) (p fe : Nat) (u c l : Nat) :
    Except String (Nat × Nat × Nat × Nat) :=
  match zip64Field data fe u p with
  | .error e => .error e
  | .ok (u, p) =>
    match zip64Field data fe c p with
    | .error e => .error e
    | .ok (c, p) =>
      match zip64Field data fe l p with
      | .error e => .error e
      | .ok (l, p) => .ok (u, c, l, p + (fe - p))

/-- A successful `zip64Field` never moves the cursor backwards. -/
theorem zip64Field_le {data : List Nat} {fe v p v' p' : Nat}
    (h : zip64Field data fe v p = .ok (v', p')) : p ≤ p' := by
  unfold zip64Field at h
  split at h
  · split at h
    · exact absurd h (by simp)
    · simp only [Except.ok.injEq, Prod.mk.injEq] at h
      omega
  · simp only [Except.ok.injEq, Prod.mk.injEq] at h
    omega

/-- A successful `zip64Branch` never moves the cursor backwards past its
starting position. -/
theorem zip64Branch_le {data : List Nat} {p fe u c l u' c' l' p' : Nat}
    (h : zip64Branch data p fe u c l = .ok (u', c', l', p')) : p ≤ p' := by
  unfold zip64Branch at h
  split at h
  · exact absurd h (by simp)
  · rename_i u1 p1 h1
    split at h
    · exact absurd h (by simp)
    · rename_i c2 p2 h2
      split at h
      · exact absurd h (by simp)
      · rename_i l3 p3 h3
        simp only [Except.ok.injEq, Prod.mk.injEq] at h
        have e1 := zip64Field_le h1
        have e2 := zip64Field_le h2
        have e3 := zip64Field_le h3
        omega

/-- The `while cursor.position() + 4 <= extra_field_end` loop of
`parse_cdfh` (src/zip/parser.rs): walk `{id, size, payload}` extra
records, resolving ZIP64 fields on id `0x0001` and skipping `size` bytes
otherwise. -/
def extraLoop (data : List Nat) (p fe : Nat) (u c l : Nat) :
    Except String (Nat × Nat × Nat × Nat) :=
  if h : p + 4 ≤ fe then
    match cread data p 2 with
    | .error e => .error e
    | .ok header_id =>
      match cread data (p + 2) 2 with
      | .error e => .error e
      | .ok field_size =>
        if header_id = 0x0001 then
          match h64 : zip64Branch data (p + 4) fe u c l with
          | .error e => .error e
          | .ok (u, c, l, p') => extraLoop data p' fe u c l
        else
          extraLoop data (p + 4 + field_size) fe u c l
  else pure (u, c, l, p)
termination_by fe - p
decreasing_by
  · have := zip64Branch_le h64
    omega
  · omega

/-- `ZipParser::parse_cdfh` (src/zip/parser.rs): decode one Central
Directory File Header at position `p0` of the Central Directory bytes,
returning the entry and the position just past the header.  The sixteen
consecutive cursor reads of the fixed fields after the signature are
bounds-checked collectively (they all fail with the same cursor error,
so the first check that matters is `p0 + 46 ≤ data.length`).  The file
name is kept as its raw bytes; `is_directory` holds exactly when the
name ends with `/` (byte 47), as the lossy UTF-8 decode preserves a
trailing slash. -/
def parse_cdfh (data : List Nat) (p0 : Nat) : Except String (ZipFileEntry × Nat) :=
  if p0 + 4 > data.length then .error "failed to fill whole buffer"
  else if !sliceEq data p0 cdfhSignature then
    .error "Invalid Central Directory File Header"
  else if p0 + 46 > data.length then .error "failed to fill whole buffer"
  else
    let compression_method := readLE data (p0 + 10) 2
    let last_mod_time := readLE data (p0 + 12) 2
    let last_mod_date := readLE data (p0 + 14) 2
    let crc32 := readLE data (p0 + 16) 4
    let compressed_size := readLE data (p0 + 20) 4
    let uncompressed_size := readLE data (p0 + 24) 4
    let file_name_length := readLE data (p0 + 28) 2
    let extra_field_length := readLE data (p0 + 30) 2
    let file_comment_length := readLE data (p0 + 32) 2
    let lfh_offset := readLE data (p0 + 42) 4
    if p0 + 46 + file_name_length > data.length then
      .error "failed to fill whole buffer"
    else
      let file_name := (data.drop (p0 + 46)).take file_name_length
      let is_directory := file_name.getLast? == some 47
      let extra_field_end := p0 + 46 + file_name_length + extra_field_length
      match extraLoop data (p0 + 46 + file_name_length) extra_field_end
          uncompressed_size compressed_size lfh_offset with
      | .error e => .error e
      | .ok (uncompressed_size, compressed_size, lfh_offset, _) =>
        .ok ({
          file_name := file_name
          compression_method := CompressionMethod.from_u16 compression_method
          compressed_size := compressed_size
          uncompressed_size := uncompressed_size
          crc32 := crc32
          lfh_offset := lfh_offset
          last_mod_time := last_mod_time
          last_mod_date := last_mod_date
          is_directory := is_directory }, extra_field_end + file_comment_length)

/-! ## LFH resolution (src/zip/parser.rs, `ZipParser::get_data_offset`) -/

/-- `ZipParser::get_data_offset` (src/zip/parser.rs): read the 30-byte LFH
at `entry.lfh_offset`, verify its signature, and compute
`lfh_offset + 30 + name_len + extra_len` from the LFH length fields at
offsets 26 and 28. -/
def get_data_offset (src : List Nat) (e : ZipFileEntry) : Except String Nat :=
  if !sliceEq (readAt src e.lfh_offset LFH_SIZE) 0 lfhSignature then
    .error "Invalid Local File Header"
  else
    .ok (e.lfh_offset + LFH_SIZE +
      readLE (readAt src e.lfh_offset LFH_SIZE) 26 2 +
      readLE (readAt src e.lfh_offset LFH_SIZE) 28 2)

/-! ## Extraction (src/zip/extractor.rs, `ZipExtractor::extract_to_memory`) -/

/-- `ZipExtractor::extract_to_memory` (src/zip/extractor.rs).  The raw
DEFLATE decoder of the external `flate2` crate is passed in as the
`inflate` parameter; the `Stored` branch reads `uncompressed_size` bytes
into a zero-initialised buffer and returns the buffer, discarding the
read count. -/
def extract_to_memory (inflate : List Nat → Except String (List Nat))
    (src : List Nat) (e : ZipFileEntry) : Except String (List Nat) :=
  match get_data_offset src e with
  | .error err => .error err
  | .ok data_offset =>
    match e.compression_method with
    | .Stored => .ok (readAt src data_offset e.uncompressed_size)
    | .Deflate => inflate (readAt src data_offset e.compressed_size)
    | .Unknown m => .error ("Unsupported compression method: " ++ toString m)

/-! ## ZIP64 records and the Central Directory walk
(src/zip/structures.rs, src/zip/parser.rs) -/

/-- `Zip64EOCDLocator` (src/zip/structures.rs). -/
structure Zip64EOCDLocator where
  disk_with_eocd64 : Nat
  eocd64_offset : Nat
  total_disks : Nat
deriving DecidableEq, Repr

/-- `Zip64EOCDLocator::SIGNATURE`, the bytes of `PK\x06\x07`. -/
def zip64LocatorSignature : List Nat := [0x50, 0x4B, 0x06, 0x07]

/-- `Zip64EOCDLocator::from_bytes` (src/zip/structures.rs). -/
def Zip64EOCDLocator.from_bytes (data : List Nat) : Except String Zip64EOCDLocator :=
  if data.length < 20 then .error "Invalid ZIP64 format"
  else if !sliceEq data 0 zip64LocatorSignature then .error "Invalid ZIP64 format"
  else .ok {
    disk_with_eocd64 := readLE data 4 4
    eocd64_offset := readLE data 8 8
    total_disks := readLE data 16 4 }

/-- `Zip64EOCD` (src/zip/structures.rs). -/
structure Zip64EOCD where
  eocd64_size : Nat
  version_made_by : Nat
  version_needed : Nat
  disk_number : Nat
  disk_with_cd : Nat
  disk_entries : Nat
  total_entries : Nat
  cd_size : Nat
  cd_offset : Nat
deriving DecidableEq, Repr

/-- `Zip64EOCD::SIGNATURE`, the bytes of `PK\x06\x06`. -/
def zip64EocdSignature : List Nat := [0x50, 0x4B, 0x06, 0x06]

/-- `Zip64EOCD::from_bytes` (src/zip/structures.rs). -/
def Zip64EOCD.from_bytes (data : List Nat) : Except String Zip64EOCD :=
  if data.length < 56 then .error "Invalid ZIP64 format"
  else if !sliceEq data 0 zip64EocdSignature then .error "Invalid ZIP64 format"
  else .ok {
    eocd64_size := readLE data 4 8
    version_made_by := readLE data 12 2
    version_needed := readLE data 14 2
    disk_number := readLE data 16 4
    disk_with_cd := readLE data 20 4
    disk_entries := readLE data 24 8
    total_entries := readLE data 32 8
    cd_size := readLE data 40 8
    cd_offset := readLE data 48 8 }

/-- `ZipParser::read_zip64_eocd` (src/zip/parser.rs). -/
def read_zip64_eocd (src : List Nat) (eocd_offset : Nat) : Except String Zip64EOCD := do
  let locator ← Zip64EOCDLocator.from_bytes (readAt src (eocd_offset - 20) 20)
  Zip64EOCD.from_bytes (readAt src locator.eocd64_offset 56)

/-- The entry loop of `ZipParser::list_files` (src/zip/parser.rs): parse
`n` consecutive CDFH records starting at `pos`. -/
def parseEntries (data : List Nat) : Nat → Nat → Except String (List ZipFileEntry)
  | 0, _ => pure []
  | n + 1, pos => do
    let (e, pos') ← parse_cdfh data pos
    let rest ← parseEntries data n pos'
    pure (e :: rest)

/-- `ZipParser::list_files` (src/zip/parser.rs): EOCD discovery, optional
ZIP64 promotion, one read of the whole Central Directory, then the entry
loop. -/
def list_files (src : List Nat) : Except String (List ZipFileEntry) := do
  let (eocd, eocd_offset) ← find_eocd src
  let (cd_offset, cd_size, total_entries) ←
    if eocd.is_zip64 then do
      let eocd64 ← read_zip64_eocd src eocd_offset
      pure (eocd64.cd_offset, eocd64.cd_size, eocd64.total_entries)
    else
      pure (eocd.cd_offset, eocd.cd_size, eocd.total_entries)
  let cd_data := readAt src cd_offset cd_size
  parseEntries cd_data total_entries 0

/-! ## HTTP Range reader (src/io/http.rs, `HttpRangeReader`)

One network request of the `read_at` retry loop is modelled by the event
it produces: a response (with status code and body bytes), a transient
transport error (timeout or connection failure), or any other transport
error.  A call consumes events in order. -/

/-- The outcome of one `GET` request issued by `HttpRangeReader::read_at`. -/
inductive NetEvent where
  | response (status : Nat) (body : List Nat)
  | transient
  | fatal
deriving DecidableEq, Repr

/-- The errors `HttpRangeReader::read_at` can produce, by source position;
`message` below gives the formatted text.  `noResponse` is the modelling
artifact for an event list exhausted while the loop still needs data (the
real loop would issue another request). -/
inductive HttpErr where
  | maxRetries
  | badStatus (code : Nat)
  | transport
  | noResponse
deriving DecidableEq, Repr

/-- The error message carried by each `HttpErr` (the `bail!` strings of
src/io/http.rs; `transport` surfaces the reqwest error's own text). -/
def HttpErr.message : HttpErr → String
  | .maxRetries => "Max retries exceeded"
  | .badStatus code => "HTTP request failed with status: " ++ toString code
  | .transport => "reqwest transport error"
  | .noResponse => "no response"

/-- `max_retry` as set by `HttpRangeReader::new` (src/io/http.rs). -/
def MAX_RETRY : Nat := 10

/-- The `while received < expected_size` loop of
`HttpRangeReader::read_at` (src/io/http.rs).  Returns the `read_at`
result together with the final value of the cumulative
`transferred_bytes` counter.  On a `206` response of body `body`,
`min body.length (expected - received)` bytes are copied into the
caller's buffer and counted; on a transient error the retry counter is
incremented and checked against `MAX_RETRY`; any other error surfaces
immediately. -/
def httpLoop (expected : Nat) :
    List NetEvent → Nat → Nat → Nat → Except HttpErr Nat × Nat
  | [], received, _retry_count, transferred =>
    if received < expected then (.error .noResponse, transferred)
    else (.ok received, transferred)
  | ev :: rest, received, retry_count, transferred =>
    if received < expected then
      match ev with
      | .response status body =>
        if status ≠ 206 then (.error (.badStatus status), transferred)
        else
          let chunk_len := min body.length (expected - received)
          httpLoop expected rest (received + chunk_len) retry_count
            (transferred + chunk_len)
      | .transient =>
        if MAX_RETRY ≤ retry_count + 1 then (.error .maxRetries, transferred)
        else httpLoop expected rest received (retry_count + 1) transferred
      | .fatal => (.error .transport, transferred)
    else (.ok received, transferred)

/-- `HttpRangeReader::read_at` (src/io/http.rs): the empty-buffer shortcut,
the `Range` end clamp `end = min(offset + len - 1, size - 1)`, the
expected-size computation (in wrapping `u64` arithmetic), and the retry
loop starting with `received = 0` and `retry_count = 0`.  `transferred`
is the counter value before the call; the second component of the result
is its value after the call. -/
def read_at_http (size : Nat) (events : List NetEvent) (offset len : Nat)
    (transferred : Nat) : Except HttpErr Nat × Nat :=
  if len = 0 then (.ok 0, transferred)
  else
    httpLoop ((wsub64 (min (offset + len - 1) (size - 1)) offset + 1) % U64MOD)
      events 0 0 transferred

/-- A sequence of `read_at` calls against one `HttpRangeReader`, each call
given as its event list, offset and length; threads the shared
`transferred_bytes` counter and collects each call's result. -/
def runCalls (size : Nat) :
    List (List NetEvent × Nat × Nat) → Nat → List (Except HttpErr Nat) × Nat
  | [], transferred => ([], transferred)
  | (events, offset, len) :: rest, transferred =>
    let (r, transferred') := read_at_http size events offset len transferred
    let (rs, final) := runCalls size rest transferred'
    (r :: rs, final)

/-- The sum of the byte counts returned by the successful calls. -/
def okSum : List (Except HttpErr Nat) → Nat
  | [] => 0
  | .ok n :: rest => n + okSum rest
  | .error _ :: rest => okSum rest

/-- The number of transient transport errors in an event list. -/
def countTransients : List NetEvent → Nat
  | [] => 0
  | .transient :: rest => countTransients rest + 1
  | _ :: rest => countTransients rest

/-! ## Verbose listing ratio (src/main.rs, `list_files`) -/

/-- The compression-ratio percentage printed by the verbose listing
(src/main.rs, `list_files`): `100 - (compressed * 100 / uncompressed)` in
`u64` arithmetic when `uncompressed > 0`, and `0` otherwise.  The `u64`
multiplication and subtraction wrap modulo `2^64` as in a release build. -/
def ratioPercent (compressed uncompressed : Nat) : Nat :=
  if uncompressed > 0 then
    wsub64 100 (compressed * 100 % U64MOD / uncompressed)
  else 0

/-! ## Helper lemmas -/

/-- Bytes of a positioned-read buffer agree with the source (including the
zero padding past EOF, which matches `byteAt`'s default). -/
theorem byteAt_readAt (src : List Nat) (off len j : Nat) (h : j < len) :
    byteAt (readAt src off len) j = byteAt src (off + j) := by
  unfold readAt byteAt
  simp only [List.getD_eq_getElem?_getD]
  rcases lt_or_le j ((src.drop off).take len).length with hj | hj
  · rw [List.getElem?_append_left hj]
    rw [List.getElem?_take_of_lt h, List.getElem?_drop]
  · rw [List.getElem?_append_right hj]
    have hlen : ((src.drop off).take len).length = min len (src.length - off) := by
      simp
    have hsrc : src.length ≤ off + j := by
      rw [hlen] at hj
      omega
    have h1 : (List.replicate (len - ((src.drop off).take len).length) 0)[j -
        ((src.drop off).take len).length]? = some 0 := by
      apply List.getElem?_replicate_of_lt
      rw [hlen]
      omega
    rw [h1, List.getElem?_eq_none_iff.mpr hsrc]
    rfl

/-- A two-byte little-endian read, spelled out. -/
theorem readLE_two (data : List Nat) (i : Nat) :
    readLE data i 2 = byteAt data i + 256 * byteAt data (i + 1) := by
  show byteAt data i + 256 * (byteAt data (i + 1) + 256 * 0) = _
  ring

/-- A four-element slice comparison, characterised byte by byte. -/
theorem take_four_eq (l : List Nat) (a b c d : Nat) :
    l.take 4 = [a, b, c, d] ↔
      4 ≤ l.length ∧ l.getD 0 0 = a ∧ l.getD 1 0 = b ∧ l.getD 2 0 = c ∧
        l.getD 3 0 = d := by
  rcases l with _ | ⟨x, _ | ⟨y, _ | ⟨z, _ | ⟨w, rest⟩⟩⟩⟩ <;>
    simp [List.getD, List.take_succ_cons]

/-- `byteAt` through `List.drop`. -/
theorem byteAt_drop (data : List Nat) (i j : Nat) :
    byteAt (data.drop i) j = byteAt data (i + j) := by
  unfold byteAt
  simp only [List.getD_eq_getElem?_getD, List.getElem?_drop]

/-- `sliceEq` against a four-byte pattern, characterised byte by byte. -/
theorem sliceEq_four (data : List Nat) (i a b c d : Nat) :
    sliceEq data i [a, b, c, d] = true ↔
      i + 4 ≤ data.length ∧ byteAt data i = a ∧ byteAt data (i + 1) = b ∧
        byteAt data (i + 2) = c ∧ byteAt data (i + 3) = d := by
  unfold sliceEq
  rw [show (List.length [a, b, c, d]) = 4 from rfl, beq_iff_eq, take_four_eq]
  unfold byteAt
  simp only [List.getD_eq_getElem?_getD, List.getElem?_drop, List.length_drop,
    Nat.add_zero]
  constructor
  · rintro ⟨h1, h2⟩
    exact ⟨by omega, h2⟩
  · rintro ⟨h1, h2⟩
    exact ⟨by omega, h2⟩

/-- A `zip64Field` step on a sentinel base value with 8 bytes of room
reads the replacement and advances by 8. -/
theorem zip64Field_sentinel {data : List Nat} {fe v p : Nat}
    (h : v = 0xFFFFFFFF) (h8 : p + 8 ≤ fe) (hfe : fe ≤ data.length) :
    zip64Field data fe v p = .ok (readLE data p 8, p + 8) := by
  unfold zip64Field cread
  rw [if_pos ⟨h, h8⟩, if_pos (by omega)]

/-- A `zip64Field` step on a non-sentinel base value consumes nothing. -/
theorem zip64Field_keep {data : List Nat} {fe v p : Nat}
    (h : v ≠ 0xFFFFFFFF) : zip64Field data fe v p = .ok (v, p) := by
  unfold zip64Field
  rw [if_neg (fun hand => h hand.1)]

/-- `from_u16` on a value other than 0 and 8 preserves it in `Unknown`. -/
theorem from_u16_unknown (v : Nat) (h0 : v ≠ 0) (h8 : v ≠ 8) :
    CompressionMethod.from_u16 v = .Unknown v := by
  unfold CompressionMethod.from_u16
  split <;> simp_all

/-- A two-byte little-endian value is zero exactly when both bytes are. -/
theorem readLE_two_eq_zero (data : List Nat) (i : Nat) :
    readLE data i 2 = 0 ↔ byteAt data i = 0 ∧ byteAt data (i + 1) = 0 := by
  rw [readLE_two]
  omega

/-- Corresponding bytes of the search buffer's last 22 bytes and of the
tail buffer of the fast path agree. -/
theorem byteAt_tail_eq (src : List Nat) (S j : Nat) (h22 : 22 ≤ S)
    (hS : S ≤ src.length) (hj : j < 22) :
    byteAt (readAt src (src.length - S) S) (S - 22 + j) =
      byteAt (readAt src (src.length - 22) 22) j := by
  rw [byteAt_readAt src (src.length - S) S (S - 22 + j) (by omega),
      byteAt_readAt src (src.length - 22) 22 j hj]
  congr 1
  omega

/-- The scan's candidate test at the topmost index `search - 22` is
exactly the fast path's test on the last 22 bytes. -/
theorem eocdCand_top_iff (src : List Nat) (h22 : EOCD_SIZE ≤ src.length) :
    (eocdCand
        (readAt src (src.length - min (MAX_COMMENT_SIZE + EOCD_SIZE) src.length)
          (min (MAX_COMMENT_SIZE + EOCD_SIZE) src.length))
        (min (MAX_COMMENT_SIZE + EOCD_SIZE) src.length - EOCD_SIZE) = true) ↔
    (sliceEq (readAt src (src.length - EOCD_SIZE) EOCD_SIZE) 0 eocdSignature = true ∧
      byteAt (readAt src (src.length - EOCD_SIZE) EOCD_SIZE) 20 = 0 ∧
      byteAt (readAt src (src.length - EOCD_SIZE) EOCD_SIZE) 21 = 0) := by
  unfold EOCD_SIZE MAX_COMMENT_SIZE at *
  set S := min 65557 src.length with hSdef
  have hminle : S ≤ src.length := min_le_right _ _
  have hmin22 : 22 ≤ S := le_min (by norm_num) h22
  have hb : ∀ j, j < 22 →
      byteAt (readAt src (src.length - S) S) (S - 22 + j) =
        byteAt (readAt src (src.length - 22) 22) j :=
    fun j hj => byteAt_tail_eq src S j hmin22 hminle hj
  have h0 := hb 0 (by norm_num)
  have h1 := hb 1 (by norm_num)
  have h2 := hb 2 (by norm_num)
  have h3 := hb 3 (by norm_num)
  have h20 := hb 20 (by norm_num)
  have h21 := hb 21 (by norm_num)
  simp only [Nat.add_zero] at h0
  unfold eocdCand EOCD_SIZE
  rw [Bool.and_eq_true, beq_iff_eq, readAt_length, readLE_two]
  have hidx : S - 22 + 20 + 1 = S - 22 + 21 := by omega
  rw [hidx, h20, h21]
  simp only [eocdSignature]
  rw [sliceEq_four, sliceEq_four, readAt_length, readAt_length]
  rw [h0, h1, h2, h3]
  simp only [Nat.zero_add]
  omega

/-- When the candidate test fails at the topmost index, the code's scan
range (which stops one short of it) and the specification's scan range
(which includes it) find the same result. -/
theorem scanCode_eq_scanSpec (buf : List Nat)
    (htop : EOCD_SIZE ≤ buf.length →
      eocdCand buf (buf.length - EOCD_SIZE) = false) :
    scanCode buf = scanSpec buf := by
  unfold scanCode scanSpec
  rcases Nat.lt_or_ge buf.length EOCD_SIZE with h | h
  · have h0 : buf.length - EOCD_SIZE = 0 := by omega
    rw [h0, if_pos h]
  · have hcand := htop h
    rcases Nat.eq_or_lt_of_le h with heq | hlt
    · have h0 : buf.length - EOCD_SIZE = 0 := by omega
      rw [h0] at hcand
      rw [h0, if_neg (by omega)]
      simp [eocdScanFrom, hcand]
    · have hstep : buf.length - EOCD_SIZE = (buf.length - EOCD_SIZE - 1) + 1 := by
        unfold EOCD_SIZE at *
        omega
      rw [hstep] at hcand
      rw [if_neg (by omega), hstep]
      simp [eocdScanFrom, hcand]

/-! ## Claims -/

/-- C1: EOCD discovery behaves exactly as specified: accept the tail
record when its signature matches and its comment-length field is zero;
otherwise read the last `min(65535 + 22, size)` bytes and scan `i` from
`search - 22` downward to `0`, accepting the first index whose signature
matches and whose comment-length claim equals `search - i - 22`, at
archive offset `size - search + i`; fail with "Not a valid ZIP file" when
no index qualifies.  (The code's loop starts one index lower, at
`search - 23`; the index `search - 22` repeats the already-failed fast
path test, so the results coincide on every source.) -/
theorem c1_find_eocd_follows_spec (src : List Nat) :
    find_eocd src = find_eocd_spec src := by
  by_cases h22 : EOCD_SIZE ≤ src.length
  · by_cases hfast :
      (sliceEq (readAt src (src.length - EOCD_SIZE) EOCD_SIZE) 0 eocdSignature = true ∧
        byteAt (readAt src (src.length - EOCD_SIZE) EOCD_SIZE) 20 = 0 ∧
        byteAt (readAt src (src.length - EOCD_SIZE) EOCD_SIZE) 21 = 0)
    · obtain ⟨hs, hb20, hb21⟩ := hfast
      unfold find_eocd find_eocd_spec
      rw [if_pos h22,
        if_pos (show (sliceEq (readAt src (src.length - EOCD_SIZE) EOCD_SIZE) 0
            eocdSignature &&
          (byteAt (readAt src (src.length - EOCD_SIZE) EOCD_SIZE) 20 == 0) &&
          (byteAt (readAt src (src.length - EOCD_SIZE) EOCD_SIZE) 21 == 0)) = true by
          simp [hs, hb20, hb21]),
        if_pos ⟨h22, hs, (readLE_two_eq_zero _ _).mpr ⟨hb20, hb21⟩⟩]
    · unfold find_eocd find_eocd_spec
      rw [if_pos h22]
      rw [if_neg (show ¬((sliceEq (readAt src (src.length - EOCD_SIZE) EOCD_SIZE) 0
            eocdSignature &&
          (byteAt (readAt src (src.length - EOCD_SIZE) EOCD_SIZE) 20 == 0) &&
          (byteAt (readAt src (src.length - EOCD_SIZE) EOCD_SIZE) 21 == 0)) = true) by
          intro hb
          simp only [Bool.and_eq_true, beq_iff_eq] at hb
          exact hfast ⟨hb.1.1, hb.1.2, hb.2⟩)]
      rw [if_neg (show ¬(EOCD_SIZE ≤ src.length ∧
          sliceEq (readAt src (src.length - EOCD_SIZE) EOCD_SIZE) 0 eocdSignature = true ∧
          readLE (readAt src (src.length - EOCD_SIZE) EOCD_SIZE) 20 2 = 0) by
          rintro ⟨_, hsg, hz⟩
          rw [readLE_two_eq_zero] at hz
          exact hfast ⟨hsg, hz.1, hz.2⟩)]
      unfold find_eocd_scan
      rw [scanCode_eq_scanSpec]
      intro hlen
      rw [readAt_length] at hlen ⊢
      rw [Bool.eq_false_iff]
      intro hc
      exact hfast ((eocdCand_top_iff src h22).mp hc)
  · unfold find_eocd find_eocd_spec
    rw [if_neg h22, if_neg (fun hc => h22 hc.1)]
    unfold find_eocd_scan
    rw [scanCode_eq_scanSpec]
    intro hlen
    rw [readAt_length] at hlen
    exact absurd (le_trans hlen (min_le_right _ _)) h22

/-- C9: `CompressionMethod` round trip: for every `m` in the `u16` range,
`from_u16(m).as_u16() == m`; `from_u16` maps `0` to `Stored`, `8` to
`Deflate`, and every other value `v` to `Unknown(v)`. -/
theorem c9_compression_method_round_trip (m : Nat) (hm : m ≤ 65535) :
    (CompressionMethod.from_u16 m).as_u16 = m ∧
    CompressionMethod.from_u16 0 = .Stored ∧
    CompressionMethod.from_u16 8 = .Deflate ∧
    ∀ v, v ≠ 0 → v ≠ 8 → CompressionMethod.from_u16 v = .Unknown v := by
  refine ⟨?_, rfl, rfl, ?_⟩
  · unfold CompressionMethod.from_u16
    split <;> simp_all [CompressionMethod.as_u16]
  · intro v h0 h8
    unfold CompressionMethod.from_u16
    split <;> simp_all

/-- C9 witness: the round trip at `m = 12`. -/
theorem c9_compression_method_round_trip_witness :
    (CompressionMethod.from_u16 12).as_u16 = 12 :=
  (c9_compression_method_round_trip 12 (by decide)).1

/-- C5 counterexample: the claim bounds the second component by 58 for
every `u16` `dos_time`, but for `dos_time = 31` (five low bits all set)
`mod_time` returns second `62`. -/
theorem c5_dos_time_counterexample :
    (({ file_name := [], compression_method := .Stored, compressed_size := 0,
        uncompressed_size := 0, crc32 := 0, lfh_offset := 0,
        last_mod_time := 31, last_mod_date := 0, is_directory := false } :
        ZipFileEntry).mod_time).2.2 = 62 ∧ ¬(62 ≤ 58) := by
  constructor
  · rfl
  · decide

/-- C5 (amended): for every entry, `mod_time` returns
`((t >> 11) & 0x1F, (t >> 5) & 0x3F, (t & 0x1F) * 2)`; the second
component is always even and at most 62, and it is at most 58 whenever
the five-bit seconds field holds a valid value (at most 29). -/
theorem c5_dos_time_unpacking (e : ZipFileEntry) :
    e.mod_time = ((e.last_mod_time >>> 11) &&& 0x1F,
        (e.last_mod_time >>> 5) &&& 0x3F, (e.last_mod_time &&& 0x1F) * 2) ∧
    2 ∣ e.mod_time.2.2 ∧ e.mod_time.2.2 ≤ 62 ∧
    (e.last_mod_time &&& 0x1F ≤ 29 → e.mod_time.2.2 ≤ 58) := by
  have hb : e.last_mod_time &&& 0x1F ≤ 0x1F := Nat.and_le_right
  refine ⟨rfl, ⟨e.last_mod_time &&& 0x1F, by unfold ZipFileEntry.mod_time; ring⟩, ?_, ?_⟩
  · show (e.last_mod_time &&& 0x1F) * 2 ≤ 62
    omega
  · intro hv
    show (e.last_mod_time &&& 0x1F) * 2 ≤ 58
    omega

/-- C5 witness: the amended bound at a concrete entry with a valid
seconds field. -/
theorem c5_dos_time_unpacking_witness :
    (({ file_name := [], compression_method := .Stored, compressed_size := 0,
        uncompressed_size := 0, crc32 := 0, lfh_offset := 0,
        last_mod_time := 0x6000, last_mod_date := 0x21, is_directory := false } :
        ZipFileEntry).mod_time).2.2 ≤ 58 :=
  (c5_dos_time_unpacking _).2.2.2 (by decide)

/-- C8 counterexample: the claim extends the exact-arithmetic formula to
every pair of sizes, but for `compressed = 200`, `uncompressed = 100` the
exact value of `100 - compressed * 100 / uncompressed` is `-100`, while
the `u64` subtraction wraps (a release build prints
`18446744073709551516%`; a debug build panics on the underflow). -/
theorem c8_ratio_counterexample :
    ¬((ratioPercent 200 100 : Int) = 100 - 200 * 100 / 100) := by
  decide

/-- C8 (amended): the displayed ratio equals
`100 - compressed * 100 / uncompressed` in exact integer arithmetic
whenever `uncompressed > 0`, the product fits in `u64`, and the quotient
is at most 100 (in particular whenever `compressed ≤ uncompressed`); for
`uncompressed = 0` the ratio is `0`.  Outside that range the `u64`
arithmetic wraps. -/
theorem c8_ratio (compressed uncompressed : Nat) :
    (0 < uncompressed → compressed * 100 < U64MOD →
      compressed * 100 / uncompressed ≤ 100 →
      ratioPercent compressed uncompressed =
        100 - compressed * 100 / uncompressed) ∧
    ratioPercent compressed 0 = 0 := by
  constructor
  · intro hu hfit hq
    unfold ratioPercent wsub64
    rw [if_pos hu, Nat.mod_eq_of_lt hfit]
    have hqlt : compressed * 100 / uncompressed % U64MOD =
        compressed * 100 / uncompressed :=
      Nat.mod_eq_of_lt (by unfold U64MOD; omega)
    rw [hqlt]
    have h1 : 100 + U64MOD - compressed * 100 / uncompressed =
        U64MOD + (100 - compressed * 100 / uncompressed) := by
      omega
    rw [h1, Nat.add_mod_left]
    exact Nat.mod_eq_of_lt (by unfold U64MOD; omega)
  · unfold ratioPercent
    simp

/-- C8 witness: the amended formula at `compressed = 50`,
`uncompressed = 100`. -/
theorem c8_ratio_witness : ratioPercent 50 100 = 50 := by
  have h := (c8_ratio 50 100).1 (by decide) (by decide) (by decide)
  simpa using h

/-- C2: in the `0x0001` extra record, an 8-byte replacement is read, in
the order uncompressed size, compressed size, LFH offset, exactly for the
base fields equal to `0xFFFFFFFF`; non-sentinel fields consume nothing,
so each sentinel field's replacement sits at the offset determined only
by the sentinel fields before it (for a record where only `lfh_offset` is
sentinel, the offset is the payload start: exactly 8 bytes consumed). -/
theorem c2_selective_zip64_consumption (data : List Nat) (p fe u c l : Nat)
    (hfe : fe ≤ data.length)
    (hroom : p + ((if u = 0xFFFFFFFF then 8 else 0) +
        (if c = 0xFFFFFFFF then 8 else 0) +
        (if l = 0xFFFFFFFF then 8 else 0)) ≤ fe) :
    zip64Branch data p fe u c l = .ok
      (if u = 0xFFFFFFFF then readLE data p 8 else u,
       if c = 0xFFFFFFFF then
         readLE data (p + (if u = 0xFFFFFFFF then 8 else 0)) 8
       else c,
       if l = 0xFFFFFFFF then
         readLE data (p + (if u = 0xFFFFFFFF then 8 else 0) +
           (if c = 0xFFFFFFFF then 8 else 0)) 8
       else l,
       fe) := by
  by_cases hu : u = 0xFFFFFFFF <;> by_cases hc : c = 0xFFFFFFFF <;>
    by_cases hl : l = 0xFFFFFFFF
  all_goals simp only [hu, hc, hl, if_true, if_false, ite_true, ite_false,
    if_pos, if_neg, eq_self_iff_true] at hroom
  all_goals unfold zip64Branch
  all_goals
    (first | rw [zip64Field_sentinel hu (by omega) hfe] | rw [zip64Field_keep hu])
  all_goals try dsimp only
  all_goals
    (first | rw [zip64Field_sentinel hc (by omega) hfe] | rw [zip64Field_keep hc])
  all_goals try dsimp only
  all_goals
    (first | rw [zip64Field_sentinel hl (by omega) hfe] | rw [zip64Field_keep hl])
  all_goals try dsimp only
  all_goals simp only [Except.ok.injEq, Prod.mk.injEq]
  all_goals refine ⟨?_, ?_, ?_, ?_⟩
  all_goals first
    | simp [hu, hc, hl]
    | omega

/-- C2 witness: a record whose only sentinel field is the LFH offset, at
an 8-byte payload encoding the value 1: the uncompressed and compressed
sizes keep their base values and the LFH offset is read from the start of
the payload. -/
theorem c2_selective_zip64_consumption_witness :
    zip64Branch [1, 0, 0, 0, 0, 0, 0, 0] 0 8 5 6 0xFFFFFFFF =
      .ok (5, 6, 1, 8) := by
  have h := c2_selective_zip64_consumption [1, 0, 0, 0, 0, 0, 0, 0] 0 8 5 6
    0xFFFFFFFF (by decide) (by decide)
  exact h.trans rfl

/-- C3: `get_data_offset` reads the 30-byte LFH at `entry.lfh_offset`,
fails with "Invalid Local File Header" when the signature does not match,
and otherwise returns `lfh_offset + 30 + name_len + extra_len` where the
lengths are the little-endian u16 source bytes at LFH offsets 26 and 28;
nothing of the entry besides `lfh_offset` influences the result. -/
theorem c3_lfh_authority (src : List Nat) (e : ZipFileEntry) :
    (sliceEq (readAt src e.lfh_offset LFH_SIZE) 0 lfhSignature = true →
      get_data_offset src e = .ok (e.lfh_offset + 30 +
        (byteAt src (e.lfh_offset + 26) + 256 * byteAt src (e.lfh_offset + 27)) +
        (byteAt src (e.lfh_offset + 28) + 256 * byteAt src (e.lfh_offset + 29)))) ∧
    (sliceEq (readAt src e.lfh_offset LFH_SIZE) 0 lfhSignature = false →
      get_data_offset src e = .error "Invalid Local File Header") ∧
    ∀ e' : ZipFileEntry, e'.lfh_offset = e.lfh_offset →
      get_data_offset src e' = get_data_offset src e := by
  refine ⟨?_, ?_, ?_⟩
  · intro hsig
    unfold get_data_offset
    rw [hsig]
    simp only [Bool.not_true, Bool.false_eq_true, if_false]
    rw [readLE_two, readLE_two,
      byteAt_readAt src e.lfh_offset LFH_SIZE 26 (by norm_num [LFH_SIZE]),
      byteAt_readAt src e.lfh_offset LFH_SIZE 27 (by norm_num [LFH_SIZE]),
      byteAt_readAt src e.lfh_offset LFH_SIZE 28 (by norm_num [LFH_SIZE]),
      byteAt_readAt src e.lfh_offset LFH_SIZE 29 (by norm_num [LFH_SIZE])]
    norm_num [LFH_SIZE]
  · intro hsig
    unfold get_data_offset
    rw [hsig]
    simp
  · intro e' he
    unfold get_data_offset
    rw [he]

/-- C3 witness: an LFH with name length 2 and extra length 1 yields data
offset `0 + 30 + 2 + 1 = 33`. -/
theorem c3_lfh_authority_witness :
    get_data_offset
      ([0x50, 0x4B, 0x03, 0x04] ++ List.replicate 22 0 ++ [2, 0] ++ [1, 0])
      { file_name := [], compression_method := .Stored, compressed_size := 0,
        uncompressed_size := 0, crc32 := 0, lfh_offset := 0,
        last_mod_time := 0, last_mod_date := 0, is_directory := false } =
      .ok 33 := by
  have h := (c3_lfh_authority
    ([0x50, 0x4B, 0x03, 0x04] ++ List.replicate 22 0 ++ [2, 0] ++ [1, 0])
    { file_name := [], compression_method := .Stored, compressed_size := 0,
      uncompressed_size := 0, crc32 := 0, lfh_offset := 0,
      last_mod_time := 0, last_mod_date := 0, is_directory := false }).1
    (by decide)
  exact h.trans rfl

/-- C10 (implicit): for a `Stored` entry, a successful
`extract_to_memory` returns exactly `uncompressed_size` bytes; the count
returned by `read_at` is discarded, so positions the source covers are
copied and any unread tail keeps the buffer's zero fill instead of
raising an error. -/
theorem c10_stored_short_read_zero_fill
    (inflate : List Nat → Except String (List Nat))
    (src : List Nat) (e : ZipFileEntry) (out : List Nat)
    (hm : e.compression_method = .Stored)
    (hok : extract_to_memory inflate src e = .ok out) :
    out.length = e.uncompressed_size ∧
    ∀ off, get_data_offset src e = .ok off →
      out = readAt src off e.uncompressed_size ∧
      (∀ j, j < e.uncompressed_size → off + j < src.length →
        byteAt out j = byteAt src (off + j)) ∧
      (∀ j, j < e.uncompressed_size → src.length ≤ off + j →
        byteAt out j = 0) := by
  unfold extract_to_memory at hok
  cases hoff : get_data_offset src e with
  | error err =>
    rw [hoff] at hok
    simp at hok
  | ok off0 =>
    rw [hoff] at hok
    simp only [hm, Except.ok.injEq] at hok
    subst hok
    refine ⟨readAt_length src off0 e.uncompressed_size, ?_⟩
    intro off hoff2
    simp only [Except.ok.injEq] at hoff2
    subst hoff2
    refine ⟨rfl, ?_, ?_⟩
    · intro j hj _
      exact byteAt_readAt src off0 e.uncompressed_size j hj
    · intro j hj hlen
      rw [byteAt_readAt src off0 e.uncompressed_size j hj]
      unfold byteAt
      rw [List.getD_eq_getElem?_getD, List.getElem?_eq_none_iff.mpr hlen]
      rfl

/-- C10 witness: a 30-byte source holding only the LFH: the stored data
region is entirely past EOF, extraction succeeds with four zero bytes. -/
theorem c10_stored_short_read_zero_fill_witness :
    ([0, 0, 0, 0] : List Nat).length =
      ({ file_name := [], compression_method := .Stored, compressed_size := 4,
         uncompressed_size := 4, crc32 := 0, lfh_offset := 0,
         last_mod_time := 0, last_mod_date := 0, is_directory := false } :
        ZipFileEntry).uncompressed_size ∧
    byteAt [0, 0, 0, 0] 3 = 0 := by
  have h := c10_stored_short_read_zero_fill (fun _ => .error "")
    ([0x50, 0x4B, 0x03, 0x04] ++ List.replicate 26 0)
    { file_name := [], compression_method := .Stored, compressed_size := 4,
      uncompressed_size := 4, crc32 := 0, lfh_offset := 0,
      last_mod_time := 0, last_mod_date := 0, is_directory := false }
    [0, 0, 0, 0] rfl (by decide)
  exact ⟨h.1, ((h.2 30 (by decide)).2.2 3 (by decide) (by decide))⟩

/-- C6: extraction of an entry whose method is neither Stored nor Deflate
fails with "Unsupported compression method: m" (once the data offset
resolves; an unresolvable LFH fails earlier with its own error), while
the Central Directory walk never rejects a method: every successfully
parsed CDFH reports `from_u16` of the raw method word, which maps any
value other than 0 and 8 to `Unknown`. -/
theorem c6_unsupported_compression_method
    (inflate : List Nat → Except String (List Nat))
    (src : List Nat) (e : ZipFileEntry) (m : Nat)
    (hm : e.compression_method = .Unknown m)
    (hok : ∃ off, get_data_offset src e = .ok off) :
    extract_to_memory inflate src e =
      .error ("Unsupported compression method: " ++ toString m) ∧
    (∀ v, v ≠ 0 → v ≠ 8 → CompressionMethod.from_u16 v = .Unknown v) ∧
    ∀ data p0 ent pos, parse_cdfh data p0 = .ok (ent, pos) →
      ent.compression_method =
        CompressionMethod.from_u16 (readLE data (p0 + 10) 2) := by
  refine ⟨?_, fun v h0 h8 => from_u16_unknown v h0 h8, ?_⟩
  · obtain ⟨off, hoff⟩ := hok
    unfold extract_to_memory
    rw [hoff, hm]
  · intro data p0 ent pos h
    unfold parse_cdfh at h
    split at h
    · exact absurd h (by simp)
    · split at h
      · exact absurd h (by simp)
      · split at h
        · exact absurd h (by simp)
        · dsimp only at h
          split at h
          · exact absurd h (by simp)
          · split at h
            · exact absurd h (by simp)
            · rename_i heq
              simp only [Except.ok.injEq, Prod.mk.injEq] at h
              rw [← h.1]

/-- C6 witness: an entry with method `Unknown 12` over a source holding a
valid LFH: extraction fails with the capability error. -/
theorem c6_unsupported_compression_method_witness :
    extract_to_memory (fun _ => .error "")
      ([0x50, 0x4B, 0x03, 0x04] ++ List.replicate 26 0)
      { file_name := [], compression_method := .Unknown 12,
        compressed_size := 0, uncompressed_size := 0, crc32 := 0,
        lfh_offset := 0, last_mod_time := 0, last_mod_date := 0,
        is_directory := false } =
      .error "Unsupported compression method: 12" := by
  have h := (c6_unsupported_compression_method (fun _ => .error "")
    ([0x50, 0x4B, 0x03, 0x04] ++ List.replicate 26 0)
    { file_name := [], compression_method := .Unknown 12,
      compressed_size := 0, uncompressed_size := 0, crc32 := 0,
      lfh_offset := 0, last_mod_time := 0, last_mod_date := 0,
      is_directory := false } 12 rfl ⟨30, by decide⟩).1
  exact h.trans (by decide)

/-- A max-retries failure of the retry loop implies at least
`MAX_RETRY - retry_count` transient errors among the events the call
consumed (the counter is never reset). -/
theorem httpLoop_maxRetries {expected : Nat} :
    ∀ (evs : List NetEvent) (received retry_count transferred : Nat),
      (httpLoop expected evs received retry_count transferred).1 =
        .error .maxRetries →
      MAX_RETRY ≤ retry_count + countTransients evs := by
  intro evs
  induction evs with
  | nil =>
    intro received retry_count transferred h
    unfold httpLoop at h
    split at h <;> simp_all
  | cons ev rest ih =>
    intro received retry_count transferred h
    unfold httpLoop at h
    split at h
    · cases ev with
      | response status body =>
        dsimp only at h
        split at h
        · simp at h
        · have := ih (received + min body.length (expected - received))
            retry_count (transferred + min body.length (expected - received)) h
          have hc : countTransients (NetEvent.response status body :: rest) =
              countTransients rest := by
            simp [countTransients]
          omega
      | transient =>
        dsimp only at h
        have hc : countTransients (NetEvent.transient :: rest) =
            countTransients rest + 1 := by
          simp [countTransients]
        split at h
        · rename_i hret
          omega
        · have := ih received (retry_count + 1) transferred h
          omega
      | fatal =>
        dsimp only at h
        simp at h
    · simp at h

/-- C4 counterexample: nine transient failures, then a successful partial
response, then one more transient failure.  Only one failure is
consecutive after the success, yet the call fails with the max-retries
error: the code counts all transient failures of the call and never
resets the counter on success. -/
theorem c4_retry_reset_counterexample :
    read_at_http 100
      [.transient, .transient, .transient, .transient, .transient,
       .transient, .transient, .transient, .transient, .response 206 [42],
       .transient] 0 2 0 =
      (.error .maxRetries, 1) ∧
    HttpErr.maxRetries.message = "Max retries exceeded" := by
  constructor
  · decide
  · rfl

/-- C4 (amended): within one `read_at` call, the transient-failure count
is cumulative over the whole call and is not reset by a successful
response; a "Max retries exceeded" failure implies at least `MAX_RETRY`
(= 10) transient failures among the call's requests, consecutive or
not. -/
theorem c4_retry_budget_cumulative (size : Nat) (events : List NetEvent)
    (offset len transferred : Nat)
    (h : (read_at_http size events offset len transferred).1 =
      .error .maxRetries) :
    MAX_RETRY ≤ countTransients events ∧
    HttpErr.maxRetries.message = "Max retries exceeded" := by
  refine ⟨?_, rfl⟩
  unfold read_at_http at h
  split at h
  · simp at h
  · have := httpLoop_maxRetries events 0 0 transferred h
    omega

/-- C4 witness: ten consecutive transient failures exhaust the budget. -/
theorem c4_retry_budget_cumulative_witness :
    MAX_RETRY ≤ countTransients
      [.transient, .transient, .transient, .transient, .transient,
       .transient, .transient, .transient, .transient, .transient] :=
  (c4_retry_budget_cumulative 100
    [.transient, .transient, .transient, .transient, .transient,
     .transient, .transient, .transient, .transient, .transient]
    0 1 0 (by decide)).1

/-- The retry loop only increases the transferred counter, and a
successful call's counter delta equals the returned count minus the bytes
already received when the loop was entered. -/
theorem httpLoop_transferred {expected : Nat} :
    ∀ (evs : List NetEvent) (received retry_count transferred : Nat),
      transferred ≤ (httpLoop expected evs received retry_count transferred).2 ∧
      ∀ n, (httpLoop expected evs received retry_count transferred).1 = .ok n →
        (httpLoop expected evs received retry_count transferred).2 + received =
          transferred + n := by
  intro evs
  induction evs with
  | nil =>
    intro received retry_count transferred
    unfold httpLoop
    split
    · refine ⟨le_refl _, ?_⟩
      intro n h
      simp at h
    · refine ⟨le_refl _, ?_⟩
      intro n h
      simp only [Except.ok.injEq] at h
      omega
  | cons ev rest ih =>
    intro received retry_count transferred
    unfold httpLoop
    split
    · cases ev with
      | response status body =>
        dsimp only
        split
        · refine ⟨le_refl _, ?_⟩
          intro n h
          simp at h
        · have := ih (received + min body.length (expected - received))
            retry_count (transferred + min body.length (expected - received))
          refine ⟨by omega, ?_⟩
          intro n h
          have h2 := this.2 n h
          omega
      | transient =>
        dsimp only
        split
        · refine ⟨le_refl _, ?_⟩
          intro n h
          simp at h
        · exact ih received (retry_count + 1) transferred
      | fatal =>
        dsimp only
        refine ⟨le_refl _, ?_⟩
        intro n h
        simp at h
    · refine ⟨le_refl _, ?_⟩
      intro n h
      simp only [Except.ok.injEq] at h
      omega

/-- One `read_at` call only increases the counter, and on success the
delta equals the returned byte count. -/
theorem read_at_http_transferred (size : Nat) (events : List NetEvent)
    (offset len transferred : Nat) :
    transferred ≤ (read_at_http size events offset len transferred).2 ∧
    ∀ n, (read_at_http size events offset len transferred).1 = .ok n →
      (read_at_http size events offset len transferred).2 = transferred + n := by
  unfold read_at_http
  split
  · refine ⟨le_refl _, ?_⟩
    intro n h
    simp only [Except.ok.injEq] at h
    omega
  · constructor
    · exact (httpLoop_transferred events 0 0 transferred).1
    · intro n h
      have h2 := (httpLoop_transferred events 0 0 transferred).2 n h
      omega

/-- The multi-call invariant, generalised over the counter's starting
value. -/
theorem runCalls_transferred (size : Nat) :
    ∀ (calls : List (List NetEvent × Nat × Nat)) (transferred : Nat),
      okSum (runCalls size calls transferred).1 + transferred ≤
        (runCalls size calls transferred).2 ∧
      ((∀ r ∈ (runCalls size calls transferred).1, r.isOk = true) →
        okSum (runCalls size calls transferred).1 + transferred =
          (runCalls size calls transferred).2) := by
  intro calls
  induction calls with
  | nil =>
    intro transferred
    refine ⟨by simp [runCalls, okSum], fun _ => by simp [runCalls, okSum]⟩
  | cons call rest ih =>
    obtain ⟨evs, offset, len⟩ := call
    intro transferred
    have hread := read_at_http_transferred size evs offset len transferred
    unfold runCalls
    rcases hE : read_at_http size evs offset len transferred with ⟨r, tr1⟩
    rw [hE] at hread
    dsimp only at hread ⊢
    have hrec := ih tr1
    rcases hR : runCalls size rest tr1 with ⟨rs, fin⟩
    rw [hR] at hrec
    dsimp only at hrec ⊢
    cases r with
    | error err =>
      simp only [okSum]
      constructor
      · have := hread.1
        omega
      · intro hall
        have := hall (.error err) (by simp)
        simp [Except.isOk, Except.toBool] at this
    | ok n =>
      have hn := hread.2 n rfl
      simp only [okSum]
      constructor
      · have := hrec.1
        omega
      · intro hall
        have h2 := hrec.2 (fun r' hr' => hall r' (by simp [hr']))
        omega

/-- C7 counterexample: a single call whose first response copies one byte
and whose second request fails with a non-transient error: the call
returns an error (so the sum of returned counts is 0) but the counter
already holds the copied byte. -/
theorem c7_transferred_counterexample :
    ¬(okSum (runCalls 100 [([.response 206 [7], .fatal], 0, 2)] 0).1 =
      (runCalls 100 [([.response 206 [7], .fatal], 0, 2)] 0).2) := by
  decide

/-- C7 (amended): the counter accumulates exactly the bytes successfully
copied into caller buffers; hence the sum of the counts returned by
successful calls never exceeds `transferred_bytes()`, with equality
whenever every call of the sequence succeeded.  A call that fails after
partially filling its buffer leaves its copied bytes in the counter, so
the sum can fall short of the counter. -/
theorem c7_transferred_byte_counter (size : Nat)
    (calls : List (List NetEvent × Nat × Nat)) :
    okSum (runCalls size calls 0).1 ≤ (runCalls size calls 0).2 ∧
    ((∀ r ∈ (runCalls size calls 0).1, r.isOk = true) →
      okSum (runCalls size calls 0).1 = (runCalls size calls 0).2) := by
  have h := runCalls_transferred size calls 0
  refine ⟨by omega, fun hall => ?_⟩
  have h2 := h.2 hall
  omega

/-- C7 witness: two fully successful calls of 2 and 3 bytes; the counter
finishes at 5, the sum of the returned counts. -/
theorem c7_transferred_byte_counter_witness :
    okSum (runCalls 100 [([.response 206 [9, 9]], 0, 2),
      ([.response 206 [1, 2, 3]], 10, 3)] 0).1 =
    (runCalls 100 [([.response 206 [9, 9]], 0, 2),
      ([.response 206 [1, 2, 3]], 10, 3)] 0).2 :=
  (c7_transferred_byte_counter 100 [([.response 206 [9, 9]], 0, 2),
    ([.response 206 [1, 2, 3]], 10, 3)]).2 (by decide)

end Runzip
